import Mathlib

/-!
Verification of the `scratch` HTTP server core: a shallow embedding of the
HTTP request parser (`src/net/http/request.rs`, `src/net/http/common.rs`),
the response serializer (`src/net/http/response.rs`), the router
(`src/net/http/router.rs`), the per-connection job (`src/net/http/server.rs`)
and the worker pool (`src/thread/mod.rs`), together with theorems settling
the specification claims about them.

Raw request and response texts are embedded as `List Char`; raw byte
buffers (response bodies, the wire stream) as `List Nat` with every entry a
byte value.  Fallible Rust functions returning `Result<_, ParseError>`
become `Option`-valued Lean functions (`ParseError` is a unit struct, so
`none` carries the same information).
-/

namespace Scratch

/-- The CRLF line terminator used by the request grammar. -/
def crlf : List Char := ['\r', '\n']

/-- The `": "` separator of a header line. -/
def colonSpace : List Char := [':', ' ']

/-- The `"HTTP/"` marker of the version segment. -/
def httpSlash : List Char := ['H', 'T', 'T', 'P', '/']

/-- Embedding of Rust `str::splitn(2, sep)` followed by the two `next()`
calls every parse stage performs: `(before, some after)` when `sep` occurs
in `s` (splitting at the first occurrence), `(s, none)` when it does not. -/
def splitn2 (sep : List Char) : List Char → List Char × Option (List Char)
  | [] => if sep.isPrefixOf ([] : List Char) then ([], some []) else ([], none)
  | c :: rest =>
    if sep.isPrefixOf (c :: rest) then ([], some ((c :: rest).drop sep.length))
    else
      let p := splitn2 sep rest
      (c :: p.1, p.2)

/-- `sep` occurs somewhere in `s` (as the contiguous subsequence the
`splitn` family searches for). -/
def containsSeq (sep s : List Char) : Bool := (splitn2 sep s).2.isSome

/-- Decimal value of a digit string. -/
def digitsVal (ds : List Char) : Nat :=
  ds.foldl (fun acc c => acc * 10 + (c.toNat - 48)) 0

/-- Embedding of Rust `str::parse::<u8>()` (`u8::from_str`): an optional
leading plus sign, then one or more ASCII digits, with the value required
to fit in a `u8`. -/
def parseU8 (s : List Char) : Option Nat :=
  let ds := if s.head? = some '+' then s.tail else s
  if ds.isEmpty then none
  else if ds.all (fun c => c.isDigit) then
    if digitsVal ds ≤ 255 then some (digitsVal ds) else none
  else none

/-- The `Method` enumeration of `src/net/http/request.rs`. -/
inductive Method where
  | OPTIONS
  | GET
  | HEAD
  | POST
  | PUT
  | DELETE
  | TRACE
  | CONNECT
deriving DecidableEq, Repr

/-- Embedding of `impl FromStr for Method` in `src/net/http/request.rs`:
an if/else chain over the seven literals `OPTIONS` .. `TRACE`; every other
token (including `CONNECT`) falls through to the error arm. -/
def methodFromStr (s : List Char) : Option Method :=
  if s = "OPTIONS".data then some Method.OPTIONS
  else if s = "GET".data then some Method.GET
  else if s = "HEAD".data then some Method.HEAD
  else if s = "POST".data then some Method.POST
  else if s = "PUT".data then some Method.PUT
  else if s = "DELETE".data then some Method.DELETE
  else if s = "TRACE".data then some Method.TRACE
  else none

/-- Embedding of `impl Parse for Method`: split at the first space, parse
the token before it. -/
def methodParse (txt : List Char) : Option (List Char × Method) :=
  match splitn2 [' '] txt with
  | (_, none) => none
  | (tok, some rest) =>
    match methodFromStr tok with
    | some m => some (rest, m)
    | none => none

/-- Embedding of `impl Parse for Url` in `src/net/http/common.rs`: the
token up to the next space, kept verbatim as the path. -/
def urlParse (txt : List Char) : Option (List Char × String) :=
  match splitn2 [' '] txt with
  | (_, none) => none
  | (u, some rest) => some (rest, String.mk u)

/-- The `Version` struct of `src/net/http/common.rs` (`major.minor`). -/
structure Version where
  major : Nat
  minor : Nat
deriving DecidableEq, Repr

/-- Embedding of `impl Parse for Version` in `src/net/http/common.rs`:
take the segment before the first CRLF, take the text after the first
`"HTTP/"` occurrence inside it, then `split(".")` and `parse::<u8>()` the
first two components. -/
def versionParse (txt : List Char) : Option (List Char × Version) :=
  match splitn2 crlf txt with
  | (_, none) => none
  | (ver, some rest) =>
    match splitn2 httpSlash ver with
    | (_, none) => none
    | (_, some after) =>
      let p := splitn2 ['.'] after
      match parseU8 p.1 with
      | none => none
      | some major =>
        match p.2 with
        | none => none
        | some r2 =>
          match parseU8 (splitn2 ['.'] r2).1 with
          | none => none
          | some minor => some (rest, ⟨major, minor⟩)

/-- `HashMap::insert` semantics on an association list: replace the value
of an existing key, otherwise add the binding. -/
def insertAssoc {κ α : Type} [DecidableEq κ] (k : κ) (v : α) :
    List (κ × α) → List (κ × α)
  | [] => [(k, v)]
  | (k', v') :: t => if k = k' then (k, v) :: t else (k', v') :: insertAssoc k v t

/-- Embedding of the loop of `impl Parse for Headers` in
`src/net/http/common.rs`, with the accumulated header map passed
explicitly: stop (returning the remaining text as body) at the first line
that is an immediate CRLF; otherwise `parse_one` splits off the text up to
the next CRLF and splits that line at the first `": "`.  Each iteration
consumes at least the CRLF, so the `fuel` parameter (a structural bound,
instantiated with one more than the text length) never runs out. -/
def headersParseGo (fuel : Nat) (acc : List (String × String)) (txt : List Char) :
    Option (List Char × List (String × String)) :=
  match fuel with
  | 0 => none
  | fuel' + 1 =>
    if crlf.isPrefixOf txt then
      match (splitn2 crlf txt).2 with
      | none => none
      | some body => some (body, acc)
    else
      match splitn2 crlf txt with
      | (_, none) => none
      | (line, some rest) =>
        match splitn2 colonSpace line with
        | (_, none) => none
        | (k, some v) => headersParseGo fuel' (insertAssoc (String.mk k) (String.mk v) acc) rest

/-- `Headers::parse` starts from an empty map. -/
def headersParse (txt : List Char) : Option (List Char × List (String × String)) :=
  headersParseGo (txt.length + 1) [] txt

/-- The `Request` struct of `src/net/http/request.rs`. -/
structure Request where
  method : Method := Method.GET
  url : String := ""
  version : Version := ⟨1, 1⟩
  headers : List (String × String) := []
  body : String := ""

/-- Embedding of `Request::parse`: the four sequential stages, each
aborting the whole parse on failure; whatever follows the header
terminator becomes the body verbatim. -/
def requestParse (txt : List Char) : Option Request :=
  match methodParse txt with
  | none => none
  | some (r1, m) =>
    match urlParse r1 with
    | none => none
    | some (r2, u) =>
      match versionParse r2 with
      | none => none
      | some (r3, v) =>
        match headersParse r3 with
        | none => none
        | some (body, hs) =>
          some { method := m, url := u, version := v, headers := hs, body := String.mk body }

/-- The `Status` enumeration of `src/net/http/response.rs` (62 variants). -/
inductive Status where
  | Continue
  | SwitchingProtocols
  | Processing
  | EarlyHints
  | OK
  | Created
  | Accepted
  | NonAuthoritativeInfo
  | NoContent
  | ResetContent
  | PartialContent
  | MultiStatus
  | AlreadyReported
  | IMUsed
  | MultipleChoices
  | MovedPermanently
  | Found
  | SeeOther
  | NotModified
  | UseProxy
  | TemporaryRedirect
  | PermanentRedirect
  | BadRequest
  | Unauthorized
  | PaymentRequired
  | Forbidden
  | NotFound
  | MethodNotAllowed
  | NotAcceptable
  | ProxyAuthRequired
  | RequestTimeout
  | Conflict
  | Gone
  | LengthRequired
  | PreconditionFailed
  | RequestEntityTooLarge
  | RequestURITooLong
  | UnsupportedMediaType
  | RequestedRangeNotSatisfiable
  | ExpectationFailed
  | Teapot
  | MisdirectedRequest
  | UnprocessableEntity
  | Locked
  | FailedDependency
  | TooEarly
  | UpgradeRequired
  | PreconditionRequired
  | TooManyRequests
  | RequestHeaderFieldsTooLarge
  | UnavailableForLegalReasons
  | InternalServerError
  | NotImplemented
  | BadGateway
  | ServiceUnavailable
  | GatewayTimeout
  | HTTPVersionNotSupported
  | VariantAlsoNegotiates
  | InsufficientStorage
  | LoopDetected
  | NotExtended
  | NetworkAuthenticationRequired
deriving DecidableEq, Repr

/-- The numeric discriminants declared in the `enum Status` definition
(`Continue = 100`, ..., `NetworkAuthenticationRequired = 511`). -/
def Status.discriminant : Status → Nat
  | .Continue => 100
  | .SwitchingProtocols => 101
  | .Processing => 102
  | .EarlyHints => 103
  | .OK => 200
  | .Created => 201
  | .Accepted => 202
  | .NonAuthoritativeInfo => 203
  | .NoContent => 204
  | .ResetContent => 205
  | .PartialContent => 206
  | .MultiStatus => 207
  | .AlreadyReported => 208
  | .IMUsed => 226
  | .MultipleChoices => 300
  | .MovedPermanently => 301
  | .Found => 302
  | .SeeOther => 303
  | .NotModified => 304
  | .UseProxy => 305
  | .TemporaryRedirect => 307
  | .PermanentRedirect => 308
  | .BadRequest => 400
  | .Unauthorized => 401
  | .PaymentRequired => 402
  | .Forbidden => 403
  | .NotFound => 404
  | .MethodNotAllowed => 405
  | .NotAcceptable => 406
  | .ProxyAuthRequired => 407
  | .RequestTimeout => 408
  | .Conflict => 409
  | .Gone => 410
  | .LengthRequired => 411
  | .PreconditionFailed => 412
  | .RequestEntityTooLarge => 413
  | .RequestURITooLong => 414
  | .UnsupportedMediaType => 415
  | .RequestedRangeNotSatisfiable => 416
  | .ExpectationFailed => 417
  | .Teapot => 418
  | .MisdirectedRequest => 421
  | .UnprocessableEntity => 422
  | .Locked => 423
  | .FailedDependency => 424
  | .TooEarly => 425
  | .UpgradeRequired => 426
  | .PreconditionRequired => 428
  | .TooManyRequests => 429
  | .RequestHeaderFieldsTooLarge => 431
  | .UnavailableForLegalReasons => 451
  | .InternalServerError => 500
  | .NotImplemented => 501
  | .BadGateway => 502
  | .ServiceUnavailable => 503
  | .GatewayTimeout => 504
  | .HTTPVersionNotSupported => 505
  | .VariantAlsoNegotiates => 506
  | .InsufficientStorage => 507
  | .LoopDetected => 508
  | .NotExtended => 510
  | .NetworkAuthenticationRequired => 511

/-- Embedding of `Status::code`. -/
def Status.code : Status → Nat
  | .Continue => 100
  | .SwitchingProtocols => 101
  | .Processing => 102
  | .EarlyHints => 103
  | .OK => 200
  | .Created => 201
  | .Accepted => 202
  | .NonAuthoritativeInfo => 203
  | .NoContent => 204
  | .ResetContent => 205
  | .PartialContent => 206
  | .MultiStatus => 207
  | .AlreadyReported => 208
  | .IMUsed => 226
  | .MultipleChoices => 300
  | .MovedPermanently => 301
  | .Found => 302
  | .SeeOther => 303
  | .NotModified => 304
  | .UseProxy => 305
  | .TemporaryRedirect => 307
  | .PermanentRedirect => 308
  | .BadRequest => 400
  | .Unauthorized => 401
  | .PaymentRequired => 402
  | .Forbidden => 403
  | .NotFound => 404
  | .MethodNotAllowed => 405
  | .NotAcceptable => 406
  | .ProxyAuthRequired => 407
  | .RequestTimeout => 408
  | .Conflict => 409
  | .Gone => 410
  | .LengthRequired => 411
  | .PreconditionFailed => 412
  | .RequestEntityTooLarge => 413
  | .RequestURITooLong => 414
  | .UnsupportedMediaType => 415
  | .RequestedRangeNotSatisfiable => 416
  | .ExpectationFailed => 417
  | .Teapot => 418
  | .MisdirectedRequest => 421
  | .UnprocessableEntity => 422
  | .Locked => 423
  | .FailedDependency => 424
  | .TooEarly => 425
  | .UpgradeRequired => 426
  | .PreconditionRequired => 428
  | .TooManyRequests => 429
  | .RequestHeaderFieldsTooLarge => 431
  | .UnavailableForLegalReasons => 451
  | .InternalServerError => 500
  | .NotImplemented => 501
  | .BadGateway => 502
  | .ServiceUnavailable => 503
  | .GatewayTimeout => 504
  | .HTTPVersionNotSupported => 505
  | .VariantAlsoNegotiates => 506
  | .InsufficientStorage => 507
  | .LoopDetected => 508
  | .NotExtended => 510
  | .NetworkAuthenticationRequired => 511

/-- Embedding of `Status::text`. -/
def Status.text : Status → String
  | .Continue => "Continue"
  | .SwitchingProtocols => "Switching Protocols"
  | .Processing => "Processing"
  | .EarlyHints => "Early Hints"
  | .OK => "OK"
  | .Created => "Created"
  | .Accepted => "Accepted"
  | .NonAuthoritativeInfo => "Non-Authoritative Information"
  | .NoContent => "No Content"
  | .ResetContent => "Reset Content"
  | .PartialContent => "Partial Content"
  | .MultiStatus => "Multi-Status"
  | .AlreadyReported => "Already Reported"
  | .IMUsed => "IM Used"
  | .MultipleChoices => "Multiple Choices"
  | .MovedPermanently => "Moved Permanently"
  | .Found => "Found"
  | .SeeOther => "See Other"
  | .NotModified => "Not Modified"
  | .UseProxy => "Use Proxy"
  | .TemporaryRedirect => "Temporary Redirect"
  | .PermanentRedirect => "Permanent Redirect"
  | .BadRequest => "Bad Request"
  | .Unauthorized => "Unauthorized"
  | .PaymentRequired => "Payment Required"
  | .Forbidden => "Forbidden"
  | .NotFound => "Not Found"
  | .MethodNotAllowed => "Method Not Allowed"
  | .NotAcceptable => "Not Acceptable"
  | .ProxyAuthRequired => "Proxy Authentication Required"
  | .RequestTimeout => "Request Timeout"
  | .Conflict => "Conflict"
  | .Gone => "Gone"
  | .LengthRequired => "Length Required"
  | .PreconditionFailed => "Precondition Failed"
  | .RequestEntityTooLarge => "Payload Too Large"
  | .RequestURITooLong => "URI Too Long"
  | .UnsupportedMediaType => "Unsupported Media Type"
  | .RequestedRangeNotSatisfiable => "Range Not Satisfiable"
  | .ExpectationFailed => "Expectation Failed"
  | .Teapot => "I\x27m a teapot"
  | .MisdirectedRequest => "Misdirected Request"
  | .UnprocessableEntity => "Unprocessable Entity"
  | .Locked => "Locked"
  | .FailedDependency => "Failed Dependency"
  | .TooEarly => "Too Early"
  | .UpgradeRequired => "Upgrade Required"
  | .PreconditionRequired => "Precondition Required"
  | .TooManyRequests => "Too Many Requests"
  | .RequestHeaderFieldsTooLarge => "Request Header Fields Too Large"
  | .UnavailableForLegalReasons => "Unavailable For Legal Reasons"
  | .InternalServerError => "Internal Server Error"
  | .NotImplemented => "Not Implemented"
  | .BadGateway => "Bad Gateway"
  | .ServiceUnavailable => "Service Unavailable"
  | .GatewayTimeout => "Gateway Timeout"
  | .HTTPVersionNotSupported => "HTTP Version Not Supported"
  | .VariantAlsoNegotiates => "Variant Also Negotiates"
  | .InsufficientStorage => "Insufficient Storage"
  | .LoopDetected => "Loop Detected"
  | .NotExtended => "Not Extended"
  | .NetworkAuthenticationRequired => "Network Authentication Required"

/-- A byte in `0x80`-`0xBF`: a UTF-8 continuation byte. -/
def isCont (b : Nat) : Bool := 128 ≤ b && b ≤ 191

/-- Valid second byte of a three-byte sequence, given the lead byte
(rejecting overlong encodings and surrogates, as Rust `from_utf8` does). -/
def isCont3 (b0 b1 : Nat) : Bool :=
  if b0 = 224 then 160 ≤ b1 && b1 ≤ 191
  else if b0 = 237 then 128 ≤ b1 && b1 ≤ 159
  else isCont b1

/-- Valid second byte of a four-byte sequence, given the lead byte. -/
def isCont4 (b0 b1 : Nat) : Bool :=
  if b0 = 240 then 144 ≤ b1 && b1 ≤ 191
  else if b0 = 244 then 128 ≤ b1 && b1 ≤ 143
  else isCont b1

/-- Code point assembled from a two-byte UTF-8 sequence. -/
def utf8Char2 (b0 b1 : Nat) : Char := Char.ofNat ((b0 - 192) * 64 + (b1 - 128))

/-- Code point assembled from a three-byte UTF-8 sequence. -/
def utf8Char3 (b0 b1 b2 : Nat) : Char :=
  Char.ofNat ((b0 - 224) * 4096 + (b1 - 128) * 64 + (b2 - 128))

/-- Code point assembled from a four-byte UTF-8 sequence. -/
def utf8Char4 (b0 b1 b2 b3 : Nat) : Char :=
  Char.ofNat ((b0 - 240) * 262144 + (b1 - 128) * 4096 + (b2 - 128) * 64 + (b3 - 128))

/-- Strict UTF-8 decoding of a byte list, as Rust `str::from_utf8`:
`none` on any invalid, overlong, truncated or surrogate sequence. -/
def utf8Decode : List Nat → Option (List Char)
  | [] => some []
  | b0 :: t0 =>
    if b0 < 128 then (utf8Decode t0).map (fun cs => Char.ofNat b0 :: cs)
    else if 194 ≤ b0 && b0 ≤ 223 then
      match t0 with
      | b1 :: t1 =>
        if isCont b1 then (utf8Decode t1).map (fun cs => utf8Char2 b0 b1 :: cs) else none
      | [] => none
    else if 224 ≤ b0 && b0 ≤ 239 then
      match t0 with
      | b1 :: b2 :: t2 =>
        if isCont3 b0 b1 && isCont b2 then
          (utf8Decode t2).map (fun cs => utf8Char3 b0 b1 b2 :: cs)
        else none
      | _ => none
    else if 240 ≤ b0 && b0 ≤ 244 then
      match t0 with
      | b1 :: b2 :: b3 :: t3 =>
        if isCont4 b0 b1 && isCont b2 && isCont b3 then
          (utf8Decode t3).map (fun cs => utf8Char4 b0 b1 b2 b3 :: cs)
        else none
      | _ => none
    else none

/-- The U+FFFD replacement character. -/
def replChar : Char := Char.ofNat 65533

/-- Lossy UTF-8 decoding of a byte list, as Rust
`String::from_utf8_lossy`: each maximal invalid subpart is replaced by one
U+FFFD and decoding resumes at the first unconsumed byte. -/
def utf8LossyGo : Nat → List Nat → List Char
  | 0, _ => []
  | _, [] => []
  | fuel + 1, b0 :: t0 =>
    if b0 < 128 then Char.ofNat b0 :: utf8LossyGo fuel t0
    else if 194 ≤ b0 && b0 ≤ 223 then
      match t0 with
      | b1 :: t1 =>
        if isCont b1 then utf8Char2 b0 b1 :: utf8LossyGo fuel t1 else replChar :: utf8LossyGo fuel t0
      | [] => [replChar]
    else if 224 ≤ b0 && b0 ≤ 239 then
      match t0 with
      | b1 :: t1 =>
        if isCont3 b0 b1 then
          match t1 with
          | b2 :: t2 =>
            if isCont b2 then utf8Char3 b0 b1 b2 :: utf8LossyGo fuel t2
            else replChar :: utf8LossyGo fuel t1
          | [] => [replChar]
        else replChar :: utf8LossyGo fuel t0
      | [] => [replChar]
    else if 240 ≤ b0 && b0 ≤ 244 then
      match t0 with
      | b1 :: t1 =>
        if isCont4 b0 b1 then
          match t1 with
          | b2 :: t2 =>
            if isCont b2 then
              match t2 with
              | b3 :: t3 =>
                if isCont b3 then utf8Char4 b0 b1 b2 b3 :: utf8LossyGo fuel t3
                else replChar :: utf8LossyGo fuel t2
              | [] => [replChar]
            else replChar :: utf8LossyGo fuel t1
          | [] => [replChar]
        else replChar :: utf8LossyGo fuel t0
      | [] => [replChar]
    else replChar :: utf8LossyGo fuel t0

/-- Lossy decoding consumes at least one byte per step, so byte-count
fuel suffices. -/
def utf8Lossy (l : List Nat) : List Char := utf8LossyGo l.length l

/-- UTF-8 encoding of one character (Rust `str::as_bytes` on the rendered
`String`). -/
def utf8EncodeChar (c : Char) : List Nat :=
  let n := c.toNat
  if n < 128 then [n]
  else if n < 2048 then [192 + n / 64, 128 + n % 64]
  else if n < 65536 then [224 + n / 4096, 128 + (n / 64) % 64, 128 + n % 64]
  else [240 + n / 262144, 128 + (n / 4096) % 64, 128 + (n / 64) % 64, 128 + n % 64]

/-- UTF-8 encoding of a character list. -/
def utf8Encode (cs : List Char) : List Nat := (cs.map utf8EncodeChar).flatten

/-- UTF-8 encoding of a `String` (Rust `String::as_bytes`). -/
def utf8EncodeStr (s : String) : List Nat := utf8Encode s.data

/-- Modelled from the spec: the `buffer_to_str` helper used by the
`Display` impl in `src/net/http/response.rs`, which matches its result
against `Some`/`None`; the copy of `net/util.rs` in the tree is an older
snapshot with a panicking signature.  Per the source's usage it is
`str::from_utf8(&buf[..up_to]).ok()`: `some` of the decoded text when the
first `up_to` bytes are valid UTF-8, `none` otherwise. -/
def buffer_to_str (buf : List Nat) (upTo : Nat) : Option String :=
  (utf8Decode (buf.take upTo)).map String.mk

/-- The `Response` struct of `src/net/http/response.rs`.  Its header map
is embedded as an association list; iteration order of the Rust `HashMap`
is unspecified, the embedding iterates in list order. -/
structure Response where
  status : Status := Status.OK
  version : Version := ⟨1, 1⟩
  url : String := ""
  headers : List (String × String) := []
  body : List Nat := []

/-- `ResponseBuilder::status`. -/
def Response.withStatus (r : Response) (s : Status) : Response := { r with status := s }

/-- `ResponseBuilder::version`. -/
def Response.withVersion (r : Response) (v : Version) : Response := { r with version := v }

/-- `ResponseBuilder::header` (a `HashMap::insert`). -/
def Response.withHeader (r : Response) (k v : String) : Response :=
  { r with headers := insertAssoc k v r.headers }

/-- `ResponseBuilder::body`. -/
def Response.withBody (r : Response) (b : List Nat) : Response := { r with body := b }

/-- `impl fmt::Display for Version`: `HTTP/<major>.<minor>`. -/
def Version.display (v : Version) : String :=
  "HTTP/" ++ toString v.major ++ "." ++ toString v.minor

/-- `impl fmt::Display for Status`: `<code> <text>`. -/
def Status.display (s : Status) : String := toString s.code ++ " " ++ s.text

/-- Embedding of `impl fmt::Display for Response`: the status line
terminated by `"\n"`, one `"<name>: <value>\n"` line per header, one
further `"\n"`, then — if the body is nonempty and decodes as UTF-8 — the
body text (the `None` arm of `buffer_to_str` appends nothing). -/
def Response.display (r : Response) : String :=
  let line := r.version.display ++ " " ++ r.status.display ++ "\n"
  let withHeaders :=
    r.headers.foldl (fun acc kv => acc ++ kv.1 ++ ": " ++ kv.2 ++ "\n") line
  let withBlank := withHeaders ++ "\n"
  if 0 < r.body.length then
    match buffer_to_str r.body r.body.length with
    | some bodyText => withBlank ++ bodyText
    | none => withBlank
  else withBlank

/-- Embedding of `Response::as_bytes`: the bytes of the `Display`
rendering (`self.to_string().as_bytes()`) followed by the raw body
bytes. -/
def Response.as_bytes (r : Response) : List Nat :=
  utf8EncodeStr r.display ++ r.body

/-- The `Handler` capability of `src/net/http/router.rs`:
`handle(Request) -> io::Result<Response>`, with the opaque `io::Error`
embedded as `Unit`. -/
def Handler : Type := Request → Except Unit Response

/-- Association-list lookup (`HashMap::get`). -/
def lookupAssoc {κ α : Type} [DecidableEq κ] (k : κ) : List (κ × α) → Option α
  | [] => none
  | (k', v) :: t => if k = k' then some v else lookupAssoc k t

/-- The `Router` of `src/net/http/router.rs`: a map from URL to a map from
`Method` to handler. -/
structure Router where
  routerMap : List (String × List (Method × Handler)) := []

/-- `Router::new`. -/
def Router.new : Router := ⟨[]⟩

/-- `Router::route`: `router_map.entry(url).or_insert_with(HashMap::new)
.insert(method, handler)`. -/
def Router.route (r : Router) (method : Method) (path : String) (h : Handler) : Router :=
  match lookupAssoc path r.routerMap with
  | some mm => ⟨insertAssoc path (insertAssoc method h mm) r.routerMap⟩
  | none => ⟨insertAssoc path [(method, h)] r.routerMap⟩

/-- The handler the router would dispatch to:
`router_map.get(url).and_then(get(method))`. -/
def Router.lookupHandler (r : Router) (req : Request) : Option Handler :=
  (lookupAssoc req.url r.routerMap).bind (fun mm => lookupAssoc req.method mm)

/-- The response the router synthesizes on a miss:
`Response::builder().status(Status::NotFound).into()`. -/
def routerNotFound : Response := Response.withStatus {} Status.NotFound

/-- Embedding of `impl Handler for Router`: dispatch by exact URL, then
exact method; on a miss return `Ok` of a 404 response. -/
def Router.handle (r : Router) (req : Request) : Except Unit Response :=
  match r.lookupHandler req with
  | some h => h req
  | none => Except.ok routerNotFound

/-- One client connection as the per-connection job sees it: the bytes the
client sent and the bytes written back so far. -/
structure Conn where
  input : List Nat
  written : List Nat := []

/-- The fixed read buffer of `read_from_client` in
`src/net/http/server.rs`: 30000 zero-initialized bytes, the single `read`
call filling in the client's bytes from the front. -/
def readBuffer (c : Conn) : List Nat :=
  c.input.take 30000 ++ List.replicate (30000 - c.input.length) 0

/-- Embedding of `read_from_client`: one bounded read, a lossy UTF-8
conversion of the whole buffer, then `Request::parse` (its `ParseError`
mapped to a generic I/O error, i.e. `none`).  The buffer always holds
exactly 30000 bytes, so the lossy decoder is run with that byte count as
its fuel. -/
def read_from_client (c : Conn) : Option Request :=
  requestParse (utf8LossyGo 30000 (readBuffer c))

/-- Embedding of `respond_to_client`: `write_all` of
`response.as_bytes()`. -/
def respond_to_client (c : Conn) (r : Response) : Conn :=
  { c with written := c.written ++ r.as_bytes }

/-- Embedding of the per-connection job closure in `Server::serve`:
read, parse, invoke the handler, write — each `?` aborting the job with
its error and skipping every later stage. -/
def connJob (handle : Handler) (c : Conn) : Except Unit Unit × Conn :=
  match read_from_client c with
  | none => (Except.error (), c)
  | some req =>
    match handle req with
    | Except.error e => (Except.error e, c)
    | Except.ok resp => (Except.ok (), respond_to_client c resp)

/-- Embedding of the worker message loop of `src/thread/mod.rs`: a
dequeued job is executed with `job();` — its `io::Result` is dropped on
the floor, so only the connection state survives. -/
def workerRunJob (handle : Handler) (c : Conn) : Conn :=
  (connJob handle c).2

/-- The `Worker` struct of `src/thread/mod.rs`: an id plus an optional
join handle (`Some` while the thread is live). -/
structure Worker where
  id : Nat
  thread : Option Unit

/-- The `ThreadPool` struct of `src/thread/mod.rs` (the workers; the
channel sender is modelled by the queue of the scheduler below). -/
structure ThreadPool where
  workers : List Worker

/-- Embedding of `ThreadPool::new`: `assert!(size > 0)` — a panic,
embedded as `none` — then one `Worker` per id in `0..size`, each spawned
with a live thread handle. -/
def threadPoolNew (size : Nat) : Option ThreadPool :=
  if size = 0 then none
  else some ⟨(List.range size).map (fun id => ⟨id, some ()⟩)⟩

/-- State of the worker-pool scheduler: the FIFO job queue fed by
`ThreadPool::execute` (an mpsc channel), one slot per worker thread
(`some j` while the worker is executing job `j`), and the jobs started so
far in dequeue order. -/
structure PoolState where
  queue : List Nat
  workers : List (Option Nat)
  started : List Nat

/-- Interleaved execution of the worker loops of `src/thread/mod.rs`:
an idle worker receives the queue head (the mutex-guarded `recv`) and
starts executing it, or a busy worker finishes its job. -/
inductive PoolStep : PoolState → PoolState → Prop where
  | start (s : PoolState) (i j : Nat) (q' : List Nat) :
      s.queue = j :: q' → s.workers.get? i = some none →
      PoolStep s ⟨q', s.workers.set i (some j), s.started ++ [j]⟩
  | finish (s : PoolState) (i j : Nat) :
      s.workers.get? i = some (some j) →
      PoolStep s ⟨s.queue, s.workers.set i none, s.started⟩

/-- Initial scheduler state: `ThreadPool::new(n)` has spawned `n` idle
workers and `execute` has enqueued jobs `0, 1, ..., k-1` in submission
order. -/
def poolInit (n k : Nat) : PoolState :=
  ⟨List.range k, List.replicate n none, []⟩

/-- Reachability under interleaved worker steps. -/
def poolReaches (s t : PoolState) : Prop := Relation.ReflTransGen PoolStep s t

/-- Number of jobs executing at this instant. -/
def busyCount (s : PoolState) : Nat := s.workers.countP (fun w => w.isSome)

/-- The pool is quiescent: nothing queued, every worker idle. -/
def poolDone (s : PoolState) : Prop := s.queue = [] ∧ ∀ w ∈ s.workers, w = none

/-- Termination measure for the scheduler. -/
def poolMeasure (s : PoolState) : Nat := 2 * s.queue.length + busyCount s

/-- Decomposition of a text into the chunks between consecutive
occurrences of a separator (the lines of a header section, the `.`-parts
of a version number).  Fuel-bounded; every step consumes at least the
separator. -/
def splitAllGo (sep : List Char) : Nat → List Char → List (List Char)
  | 0, s => [s]
  | fuel + 1, s =>
    match splitn2 sep s with
    | (_, none) => [s]
    | (a, some b) => a :: splitAllGo sep fuel b

/-- Split a text at every occurrence of a (nonempty) separator. -/
def splitAll (sep s : List Char) : List (List Char) := splitAllGo sep (s.length + 1) s

/-- The header grammar of the claims, over the CRLF-chunk decomposition of
the text after the request line: header lines (each containing the `": "`
separator) until a blank CRLF-terminated line; the chunks after that
blank line are the body and are unconstrained.  The final chunk is not
CRLF-terminated, so a trailing empty chunk is not a terminator. -/
def goodHeaderChunks : List (List Char) → Bool
  | [] => false
  | [_] => false
  | c :: rest =>
    if c.isEmpty then true
    else containsSeq colonSpace c && goodHeaderChunks rest

/-- A header section violating the grammar in one of the two ways the
claims name: no blank-line terminator, or a pre-terminator line without
`": "`. -/
def headerViolation (s : List Char) : Prop := goodHeaderChunks (splitAll crlf s) = false

instance (s : List Char) : Decidable (headerViolation s) := by
  unfold headerViolation
  infer_instance

/-- The version-segment shape asserted by the claims: the whole segment is
`HTTP/<major>.<minor>` with `<major>` and `<minor>` nonempty digit
strings. -/
def claimedVersionShape (seg : List Char) : Bool :=
  httpSlash.isPrefixOf seg &&
    match splitAll ['.'] (seg.drop 5) with
    | [a, b] =>
      !a.isEmpty && a.all (fun c => c.isDigit) && !b.isEmpty && b.all (fun c => c.isDigit)
    | _ => false

/-- The response of the §8 end-to-end scenario: status 200, header
`Content-Type: text/plain`, body `"pong"`, built via the builder. -/
def pingResponse : Response :=
  ((({} : Response).withStatus Status.OK).withHeader "Content-Type" "text/plain").withBody
    (utf8Encode "pong".data)

/-- A response with no headers and the two-byte body `"ab"`, built via the
builder. -/
def abResponse : Response :=
  (({} : Response).withStatus Status.OK).withBody (utf8Encode "ab".data)

/-- A handler returning the scenario response for every request. -/
def okHandler : Handler := fun _ => Except.ok pingResponse

/-- A `GET /x` request. -/
def getXRequest : Request := { method := Method.GET, url := "/x" }

/-- A `POST /x` request. -/
def postXRequest : Request := { method := Method.POST, url := "/x" }

/-- A `GET /y` request. -/
def getYRequest : Request := { method := Method.GET, url := "/y" }

/-- A connection whose client sent a request with the unknown method token
`FROB`. -/
def frobConn : Conn := { input := utf8Encode "FROB / HTTP/1.1\r\nHost: a\r\n\r\n".data }

theorem isPrefixOf_append (xs ys : List Char) : xs.isPrefixOf (xs ++ ys) = true := by
  induction xs with
  | nil => simp [List.isPrefixOf]
  | cons a as ih => simp [List.isPrefixOf, ih]

theorem eq_append_of_isPrefixOf {xs s : List Char} (h : xs.isPrefixOf s = true) :
    ∃ t, s = xs ++ t := by
  induction xs generalizing s with
  | nil => exact ⟨s, rfl⟩
  | cons a as ih =>
    cases s with
    | nil => simp [List.isPrefixOf] at h
    | cons b bs =>
      simp only [List.isPrefixOf, Bool.and_eq_true, beq_iff_eq] at h
      obtain ⟨t, ht⟩ := ih h.2
      exact ⟨t, by simp [h.1, ht]⟩

/-- When no occurrence is found, the first component is the whole input. -/
theorem splitn2_fst_of_none {sep s a : List Char} (h : splitn2 sep s = (a, none)) :
    a = s := by
  induction s generalizing a with
  | nil =>
    by_cases hp : sep.isPrefixOf ([] : List Char) = true
    · simp [splitn2, hp] at h
    · simp only [splitn2, hp, if_neg, Bool.not_eq_true, Prod.mk.injEq] at h
      exact h.1.symm
  | cons c rest ih =>
    by_cases hp : sep.isPrefixOf (c :: rest) = true
    · simp [splitn2, hp] at h
    · simp only [splitn2, hp, if_neg, Bool.not_eq_true] at h
      cases ha : splitn2 sep rest with
      | mk x y =>
        rw [ha] at h
        simp only [Prod.mk.injEq] at h
        have hx : x = rest := ih (by rw [ha, h.2])
        rw [← h.1, hx]

theorem splitn2_some_eq {sep s a b : List Char} (h : splitn2 sep s = (a, some b)) :
    s = a ++ sep ++ b := by
  induction s generalizing a with
  | nil =>
    by_cases hp : sep.isPrefixOf ([] : List Char) = true
    · obtain ⟨t, ht⟩ := eq_append_of_isPrefixOf hp
      simp only [splitn2, hp, if_pos, Prod.mk.injEq, Option.some.injEq] at h
      have hsep : sep = [] := by
        cases List.append_eq_nil.mp ht.symm with
        | intro h1 _ => exact h1
      simp [← h.1, ← h.2, hsep]
    · simp [splitn2, hp] at h
  | cons c rest ih =>
    by_cases hp : sep.isPrefixOf (c :: rest) = true
    · obtain ⟨t, ht⟩ := eq_append_of_isPrefixOf hp
      simp only [splitn2, hp, if_pos, Prod.mk.injEq, Option.some.injEq] at h
      have hd : (c :: rest).drop sep.length = t := by
        rw [ht, List.drop_left]
      rw [ht, ← h.1, ← h.2, hd]
      simp
    · simp only [splitn2, hp, if_neg, Bool.not_eq_true] at h
      cases ha : splitn2 sep rest with
      | mk x y =>
        rw [ha] at h
        simp only [Prod.mk.injEq] at h
        have hy : y = some b := h.2
        rw [hy] at ha
        have := ih ha
        rw [← h.1, this]
        simp

theorem splitn2_not_contains {sep s : List Char} (h : containsSeq sep s = false) :
    splitn2 sep s = (s, none) := by
  unfold containsSeq at h
  cases hs : splitn2 sep s with
  | mk a ob =>
    cases ob with
    | none => rw [splitn2_fst_of_none hs]
    | some b => rw [hs] at h; simp at h

theorem splitn2_of_isPrefixOf {sep s : List Char} (hsep : sep ≠ [])
    (hs : sep.isPrefixOf s = true) :
    splitn2 sep s = ([], some (s.drop sep.length)) := by
  cases s with
  | nil =>
    obtain ⟨t, ht⟩ := eq_append_of_isPrefixOf hs
    cases List.append_eq_nil.mp ht.symm with
    | intro h1 _ => exact absurd h1 hsep
  | cons c rest => simp [splitn2, hs]

theorem containsSeq_cons (sep : List Char) (c : Char) (t : List Char) :
    containsSeq sep (c :: t) = (sep.isPrefixOf (c :: t) || containsSeq sep t) := by
  unfold containsSeq
  by_cases hp : sep.isPrefixOf (c :: t) = true
  · simp [splitn2, hp]
  · simp only [splitn2, hp, if_neg, Bool.not_eq_true]
    simp [hp]

/-- `splitn2` splits `a ++ sep ++ b` exactly at the marked occurrence,
provided no occurrence of `sep` starts earlier. -/
theorem splitn2_append {sep : List Char} (hsep : sep ≠ []) (a b : List Char)
    (h : containsSeq sep (a ++ sep.dropLast) = false) :
    splitn2 sep (a ++ sep ++ b) = (a, some b) := by
  induction a with
  | nil =>
    have hpre : sep.isPrefixOf (sep ++ b) = true := isPrefixOf_append sep b
    rw [List.nil_append, splitn2_of_isPrefixOf hsep hpre, List.drop_left]
  | cons c a' ih =>
    have hsplit : sep.dropLast ++ [sep.getLast hsep] = sep := List.dropLast_append_getLast hsep
    rw [List.cons_append, containsSeq_cons] at h
    have hparts := Bool.or_eq_false_iff.mp h
    have hnp : ¬ sep.isPrefixOf (c :: (a' ++ sep ++ b)) = true := by
      intro hp
      have hu : (c :: (a' ++ sep.dropLast)).isPrefixOf (c :: (a' ++ sep ++ b)) = true := by
        have heq : c :: (a' ++ sep ++ b) = (c :: (a' ++ sep.dropLast)) ++ ([sep.getLast hsep] ++ b) := by
          conv_lhs => rw [← hsplit]
          simp
        rw [heq]
        exact isPrefixOf_append _ _
      have h1 : sep <+: (c :: (a' ++ sep ++ b)) := List.isPrefixOf_iff_prefix.mp hp
      have h2 : (c :: (a' ++ sep.dropLast)) <+: (c :: (a' ++ sep ++ b)) :=
        List.isPrefixOf_iff_prefix.mp hu
      have hlen : sep.length ≤ (c :: (a' ++ sep.dropLast)).length := by
        simp only [List.length_cons, List.length_append, List.length_dropLast]
        have : 1 ≤ sep.length := List.length_pos.mpr hsep
        omega
      have h3 : sep <+: (c :: (a' ++ sep.dropLast)) :=
        List.prefix_of_prefix_length_le h1 h2 hlen
      have h4 : sep.isPrefixOf (c :: (a' ++ sep.dropLast)) = true :=
        List.isPrefixOf_iff_prefix.mpr h3
      rw [h4] at hparts
      exact absurd hparts.1 (by simp)
    have : (c :: a') ++ sep ++ b = c :: (a' ++ sep ++ b) := by simp
    rw [this]
    simp only [splitn2, hnp, if_neg, Bool.not_eq_true]
    rw [ih hparts.2]

theorem containsSeq_of_splitn2_some {sep s : List Char} {a b : List Char}
    (h : splitn2 sep s = (a, some b)) : containsSeq sep s = true := by
  unfold containsSeq
  rw [h]
  rfl

theorem splitn2_some_length {sep s a b : List Char} (h : splitn2 sep s = (a, some b)) :
    s.length = a.length + sep.length + b.length := by
  rw [splitn2_some_eq h]
  simp [Nat.add_assoc]

theorem utf8Encode_append (a b : List Char) :
    utf8Encode (a ++ b) = utf8Encode a ++ utf8Encode b := by
  simp [utf8Encode]

theorem readBuffer_length (c : Conn) : (readBuffer c).length = 30000 := by
  simp only [readBuffer, List.length_append, List.length_take, List.length_replicate]
  omega

theorem lookupAssoc_insertAssoc_self {κ α : Type} [DecidableEq κ] (k : κ) (v : α)
    (l : List (κ × α)) : lookupAssoc k (insertAssoc k v l) = some v := by
  induction l with
  | nil => simp [insertAssoc, lookupAssoc]
  | cons p t ih =>
    by_cases hk : k = p.1
    · simp [insertAssoc, hk, lookupAssoc]
    · simp only [insertAssoc, hk, if_neg]
      simp [lookupAssoc, hk, ih]

/-- Claim C9: the two encodings of the status table agree — `Status::code`
returns exactly the numeric discriminant declared in the `enum Status`
definition for every variant, both functions being total over the 62
declared variants. -/
theorem c9_status_code_eq_discriminant : ∀ s : Status, s.code = s.discriminant := by
  intro s
  cases s <;> rfl

/-- Claim C10: `ThreadPool::new(size)` panics exactly when `size = 0`
(embedded as `none`); for positive sizes it yields a pool of exactly
`size` workers, each holding a live thread handle. -/
theorem c10_threadPoolNew_spec : ∀ size : Nat,
    (threadPoolNew size = none ↔ size = 0) ∧
    ∀ p, threadPoolNew size = some p →
      p.workers.length = size ∧ ∀ w ∈ p.workers, w.thread.isSome = true := by
  intro size
  constructor
  · constructor
    · intro h
      by_contra hs
      simp [threadPoolNew, hs] at h
    · intro h
      simp [threadPoolNew, h]
  · intro p hp
    by_cases hs : size = 0
    · simp [threadPoolNew, hs] at hp
    · unfold threadPoolNew at hp
      rw [if_neg hs] at hp
      have hp2 := Option.some.inj hp
      constructor
      · rw [← hp2]
        simp
      · intro w hw
        rw [← hp2] at hw
        simp only [List.mem_map, List.mem_range] at hw
        obtain ⟨i, _, hi⟩ := hw
        rw [← hi]
        rfl

/-- Witness for C10 at size 2 and size 0. -/
theorem c10_witness :
    (({ workers := [⟨0, some ()⟩, ⟨1, some ()⟩] } : ThreadPool).workers.length = 2 ∧
      ∀ w ∈ ({ workers := [⟨0, some ()⟩, ⟨1, some ()⟩] } : ThreadPool).workers,
        w.thread.isSome = true) ∧
    threadPoolNew 0 = none :=
  ⟨(c10_threadPoolNew_spec 2).2 ⟨[⟨0, some ()⟩, ⟨1, some ()⟩]⟩ rfl,
    (c10_threadPoolNew_spec 0).1.mpr rfl⟩

/-- Claim C3: the spec says `CONNECT` is one of the eight accepted,
routable method values, and the `Method` enum indeed declares it — but
`Method::from_str` has no `CONNECT` arm, so the token falls through to the
error case and a well-formed `CONNECT` request fails to parse.  This
theorem evaluates the code at the failing input. -/
theorem c3_connect_is_rejected :
    methodFromStr "CONNECT".data = none ∧
    requestParse "CONNECT /x HTTP/1.1\r\nHost: a\r\n\r\n".data = none :=
  ⟨rfl, rfl⟩

/-- Claim C4: router dispatch is exact match on URL then exact match on
method — with a handler registered for (GET, p), a request for (GET, p)
is answered by exactly that handler's result; a request whose (url,
method) pair has no registered handler gets `Ok` of the 404 response with
an empty body, never an error. -/
theorem c4_router_dispatch :
    ∀ (r : Router) (p : String) (h : Handler) (req : Request),
      (req.url = p → req.method = Method.GET →
        (r.route Method.GET p h).handle req = h req) ∧
      (r.lookupHandler req = none →
        r.handle req = Except.ok routerNotFound ∧
        routerNotFound.body = [] ∧
        routerNotFound.status = Status.NotFound ∧
        ∀ e, r.handle req ≠ Except.error e) := by
  intro r p h req
  constructor
  · intro hu hm
    have hlook : (r.route Method.GET p h).lookupHandler req = some h := by
      unfold Router.lookupHandler Router.route
      cases hl : lookupAssoc p r.routerMap with
      | some mm =>
        simp only [hu, lookupAssoc_insertAssoc_self, Option.bind_some, Option.some_bind]
        rw [hm, lookupAssoc_insertAssoc_self]
      | none =>
        simp only [hu, lookupAssoc_insertAssoc_self, Option.bind_some, Option.some_bind]
        simp [lookupAssoc, hm]
    unfold Router.handle
    rw [hlook]
  · intro hnone
    have hh : r.handle req = Except.ok routerNotFound := by
      unfold Router.handle
      rw [hnone]
    refine ⟨hh, rfl, rfl, ?_⟩
    intro e hcontra
    rw [hh] at hcontra
    exact Except.noConfusion hcontra

/-- Witness for C4: a concrete router with `okHandler` registered for
(GET, "/x") dispatches a `GET /x` request to it, while `POST /x` and
`GET /y` get the empty-bodied 404. -/
theorem c4_witness :
    (Router.new.route Method.GET "/x" okHandler).handle getXRequest = okHandler getXRequest ∧
    (Router.new.route Method.GET "/x" okHandler).handle postXRequest =
      Except.ok routerNotFound ∧
    (Router.new.route Method.GET "/x" okHandler).handle getYRequest =
      Except.ok routerNotFound ∧
    routerNotFound.body = [] :=
  ⟨(c4_router_dispatch Router.new "/x" okHandler getXRequest).1 rfl rfl,
    ((c4_router_dispatch (Router.new.route Method.GET "/x" okHandler) "/x" okHandler
      postXRequest).2 rfl).1,
    ((c4_router_dispatch (Router.new.route Method.GET "/x" okHandler) "/x" okHandler
      getYRequest).2 rfl).1,
    rfl⟩

/-- Claim C7: when the parse stage or the handler stage of a
per-connection job fails, the job aborts there — nothing is ever written
to the client's stream — and the worker loop executes the job with `job();`,
dropping its `io::Result`, so the failure is never surfaced.  (The read
stage cannot return an error in this model: the source calls
`.expect("reading failed")`, which panics rather than returning `Err`.) -/
theorem c7_failed_job_writes_nothing :
    ∀ (handle : Handler) (c : Conn),
      (read_from_client c = none ∨
        ∃ req, read_from_client c = some req ∧ handle req = Except.error ()) →
      (connJob handle c).2.written = c.written ∧
      workerRunJob handle c = (connJob handle c).2 := by
  intro handle c h
  refine ⟨?_, rfl⟩
  rcases h with h | ⟨req, hreq, herr⟩
  · simp [connJob, h]
  · simp [connJob, hreq, herr]

/-- Witness for C7: the `FROB` request fails to parse, and the connection
sees no bytes at all. -/
theorem c7_witness : (connJob okHandler frobConn).2.written = [] :=
  (c7_failed_job_writes_nothing okHandler frobConn (Or.inl rfl)).1

theorem headerFold_starts_with (l : List (String × String)) :
    ∀ init : String,
      ∃ t, l.foldl (fun acc kv => acc ++ kv.1 ++ ": " ++ kv.2 ++ "\n") init = init ++ t := by
  induction l with
  | nil =>
    intro init
    exact ⟨"", (String.append_empty init).symm⟩
  | cons kv t ih =>
    intro init
    obtain ⟨u, hu⟩ := ih (init ++ kv.1 ++ ": " ++ kv.2 ++ "\n")
    refine ⟨kv.1 ++ ": " ++ kv.2 ++ "\n" ++ u, ?_⟩
    rw [List.foldl_cons, hu]
    simp [String.append_assoc]

theorem display_starts_with_status_line (r : Response) :
    ∃ t : String,
      r.display = (r.version.display ++ " " ++ r.status.display ++ "\n") ++ t := by
  simp only [Response.display]
  obtain ⟨u, hu⟩ := headerFold_starts_with r.headers
    (r.version.display ++ " " ++ r.status.display ++ "\n")
  rw [hu]
  by_cases hb : 0 < r.body.length
  · simp only [hb, if_pos]
    cases hbs : buffer_to_str r.body r.body.length with
    | none => exact ⟨u ++ "\n", by simp [String.append_assoc]⟩
    | some bodyText =>
      exact ⟨u ++ "\n" ++ bodyText, by simp [String.append_assoc]⟩
  · simp only [hb, if_neg, Bool.not_eq_true]
    exact ⟨u ++ "\n", by simp [String.append_assoc]⟩

/-- Counterexample for C1: for the §8 scenario response (status 200, one
header `Content-Type: text/plain`, body `"pong"`), the serialized stream
is not the CRLF-terminated single-body stream the claim requires (header
order cannot matter here: there is only one header). -/
theorem c1_counterexample :
    pingResponse.as_bytes ≠
      utf8EncodeStr "HTTP/1.1 200 OK\r\nContent-Type: text/plain\r\n\r\npong" := by
  decide

/-- Claim C1 (amended): the serializer terminates the status line (and
every header line) with a bare `"\n"`, not CRLF, and `as_bytes` appends
the raw body after the `Display` text, which already ends in the body
text — so the scenario response serializes to
`"HTTP/1.1 200 OK\nContent-Type: text/plain\n\npongpong"`. -/
theorem c1_lf_line_terminator :
    (∀ r : Response, ∃ t,
      r.as_bytes =
        utf8EncodeStr (r.version.display ++ " " ++ r.status.display ++ "\n") ++ t) ∧
    pingResponse.as_bytes =
      utf8EncodeStr "HTTP/1.1 200 OK\nContent-Type: text/plain\n\npongpong" := by
  constructor
  · intro r
    obtain ⟨t, ht⟩ := display_starts_with_status_line r
    refine ⟨utf8EncodeStr t ++ r.body, ?_⟩
    unfold Response.as_bytes
    rw [ht]
    unfold utf8EncodeStr
    rw [String.data_append, utf8Encode_append, List.append_assoc]
  · decide

/-- Claim C2: for a builder-built response with body `"ab"` and no
headers, `as_bytes` emits the body twice — the `Display` rendering already
contains the body text and the raw body bytes are appended after it — so
there is a full copy of the body between the blank line and the trailing
body bytes, where the claim requires nothing.  This theorem evaluates the
code at the failing input (with either line-terminator reading). -/
theorem c2_body_between_blank_line_and_body :
    abResponse.body = utf8EncodeStr "ab" ∧
    abResponse.as_bytes = utf8EncodeStr "HTTP/1.1 200 OK\n\nabab" ∧
    abResponse.as_bytes ≠ utf8EncodeStr "HTTP/1.1 200 OK\n\nab" ∧
    abResponse.as_bytes ≠ utf8EncodeStr "HTTP/1.1 200 OK\r\n\r\nab" := by
  refine ⟨rfl, by decide, by decide, by decide⟩

theorem crlf_ne_nil : crlf ≠ [] := by decide

theorem splitAllGo_succ (sep : List Char) (f : Nat) (s : List Char) :
    splitAllGo sep (f + 1) s =
      match splitn2 sep s with
      | (_, none) => [s]
      | (a, some b) => a :: splitAllGo sep f b := rfl

theorem splitAllGo_ne_nil (sep : List Char) (f : Nat) (s : List Char) :
    splitAllGo sep f s ≠ [] := by
  cases f with
  | zero => simp [splitAllGo]
  | succ f' =>
    rw [splitAllGo_succ]
    split
    · simp
    · simp

theorem splitAllGo_fuel_irrel {sep : List Char} (hsep : sep ≠ []) :
    ∀ (f g : Nat) (s : List Char), s.length < f → s.length < g →
      splitAllGo sep f s = splitAllGo sep g s := by
  intro f
  induction f with
  | zero =>
    intro g s hf
    omega
  | succ f ih =>
    intro g s hf hg
    cases g with
    | zero => omega
    | succ g' =>
      rw [splitAllGo_succ, splitAllGo_succ]
      cases hsp : splitn2 sep s with
      | mk a ob =>
        cases ob with
        | none => rfl
        | some b =>
          have hlen := splitn2_some_length hsp
          have hpos : 1 ≤ sep.length := List.length_pos.mpr hsep
          have hb : b.length < f := by omega
          have hb2 : b.length < g' := by omega
          show a :: splitAllGo sep f b = a :: splitAllGo sep g' b
          rw [ih g' b hb hb2]

theorem splitAll_cons_of_some {sep s a b : List Char} (hsep : sep ≠ [])
    (h : splitn2 sep s = (a, some b)) :
    splitAll sep s = a :: splitAll sep b := by
  unfold splitAll
  rw [splitAllGo_succ, h]
  show a :: splitAllGo sep s.length b = a :: splitAllGo sep (b.length + 1) b
  have hlen := splitn2_some_length h
  have hpos : 1 ≤ sep.length := List.length_pos.mpr hsep
  rw [splitAllGo_fuel_irrel hsep s.length (b.length + 1) b (by omega) (by omega)]

theorem headersParseGo_succ (f : Nat) (acc : List (String × String)) (txt : List Char) :
    headersParseGo (f + 1) acc txt =
      if crlf.isPrefixOf txt then
        match (splitn2 crlf txt).2 with
        | none => none
        | some body => some (body, acc)
      else
        match splitn2 crlf txt with
        | (_, none) => none
        | (line, some rest) =>
          match splitn2 colonSpace line with
          | (_, none) => none
          | (k, some v) =>
            headersParseGo f (insertAssoc (String.mk k) (String.mk v) acc) rest := rfl

/-- A header section violating the grammar parses to the generic error,
whatever headers were already accumulated. -/
theorem headersParseGo_none_of_violation :
    ∀ (fuel : Nat) (s : List Char) (acc : List (String × String)),
      s.length < fuel → headerViolation s → headersParseGo fuel acc s = none := by
  intro fuel
  induction fuel with
  | zero =>
    intro s acc hf
    omega
  | succ f ih =>
    intro s acc hf hviol
    by_cases hp : crlf.isPrefixOf s = true
    · exfalso
      have hsp := splitn2_of_isPrefixOf crlf_ne_nil hp
      have hchunks := splitAll_cons_of_some crlf_ne_nil hsp
      unfold headerViolation at hviol
      rw [hchunks] at hviol
      cases hcs : splitAll crlf (s.drop crlf.length) with
      | nil => exact splitAllGo_ne_nil crlf _ _ hcs
      | cons c t =>
        rw [hcs] at hviol
        simp [goodHeaderChunks] at hviol
    · rw [headersParseGo_succ, if_neg hp]
      split
      · rfl
      · next line rest hsp =>
        split
        · rfl
        · next k v hcs =>
          have hline : line ≠ [] := by
            intro hl
            rw [hl] at hsp
            have := splitn2_some_eq hsp
            rw [this] at hp
            simp only [List.nil_append] at hp
            exact hp (isPrefixOf_append crlf rest)
          have hchunks := splitAll_cons_of_some crlf_ne_nil hsp
          have hcol : containsSeq colonSpace line = true :=
            containsSeq_of_splitn2_some hcs
          have hviol2 : headerViolation rest := by
            unfold headerViolation at hviol ⊢
            rw [hchunks] at hviol
            cases hrc : splitAll crlf rest with
            | nil => exact absurd hrc (splitAllGo_ne_nil crlf _ _)
            | cons c t =>
              rw [hrc] at hviol
              have hle : line.isEmpty = false := by
                cases line with
                | nil => exact absurd rfl hline
                | cons a b => rfl
              simp only [goodHeaderChunks, hle, Bool.false_eq_true, if_false,
                hcol, Bool.true_and, if_neg] at hviol
              exact hviol
          have hlen := splitn2_some_length hsp
          have hrlen : rest.length < f := by
            simp only [crlf, List.length_cons, List.length_nil] at hlen
            omega
          exact ih rest _ hrlen hviol2

/-- Claim C5: whenever the text remaining after the method, URL and
version stages is a header section violating the grammar — no blank-line
terminator, or a pre-terminator header line without a `": "` separator —
`Request::parse` fails with the single generic parse error. -/
theorem c5_malformed_headers_fail :
    ∀ (txt r1 r2 r3 : List Char) (m : Method) (u : String) (v : Version),
      methodParse txt = some (r1, m) →
      urlParse r1 = some (r2, u) →
      versionParse r2 = some (r3, v) →
      headerViolation r3 →
      requestParse txt = none := by
  intro txt r1 r2 r3 m u v h1 h2 h3 hviol
  have hh : headersParse r3 = none :=
    headersParseGo_none_of_violation (r3.length + 1) r3 [] (by omega) hviol
  simp only [requestParse, h1, h2, h3, headersParse] at hh ⊢
  rw [hh]

/-- Witness for C5: one request with a malformed header line, one with no
blank-line terminator; both fail to parse. -/
theorem c5_witness :
    requestParse "GET /x HTTP/1.1\r\nBad\r\n\r\n".data = none ∧
    requestParse "GET /x HTTP/1.1\r\nA: b\r\nbody".data = none :=
  ⟨c5_malformed_headers_fail "GET /x HTTP/1.1\r\nBad\r\n\r\n".data
      "/x HTTP/1.1\r\nBad\r\n\r\n".data "HTTP/1.1\r\nBad\r\n\r\n".data "Bad\r\n\r\n".data
      Method.GET "/x" ⟨1, 1⟩ rfl rfl rfl (by decide),
    c5_malformed_headers_fail "GET /x HTTP/1.1\r\nA: b\r\nbody".data
      "/x HTTP/1.1\r\nA: b\r\nbody".data "HTTP/1.1\r\nA: b\r\nbody".data "A: b\r\nbody".data
      Method.GET "/x" ⟨1, 1⟩ rfl rfl rfl (by decide)⟩

theorem parseU8_digits {s : List Char} (hne : s ≠ [])
    (hall : s.all (fun c => c.isDigit) = true) (hval : digitsVal s ≤ 255) :
    parseU8 s = some (digitsVal s) := by
  have hhead : ¬ s.head? = some '+' := by
    cases s with
    | nil => simp
    | cons c t =>
      simp only [List.head?, Option.some.injEq]
      intro hc
      rw [List.all_cons, Bool.and_eq_true] at hall
      rw [hc] at hall
      exact absurd hall.1 (by decide)
  have hie : s.isEmpty = false := by
    cases s with
    | nil => exact absurd rfl hne
    | cons c t => rfl
  unfold parseU8
  rw [if_neg hhead]
  simp [hie, hall, hval]

theorem no_dot_of_all_digits {s : List Char} (h : s.all (fun c => c.isDigit) = true) :
    containsSeq ['.'] s = false := by
  induction s with
  | nil => rfl
  | cons c t ih =>
    rw [List.all_cons, Bool.and_eq_true] at h
    rw [containsSeq_cons]
    have hne : ('.' : Char) ≠ c := by
      intro he
      rw [← he] at h
      exact absurd h.1 (by decide)
    have hpre : (['.'] : List Char).isPrefixOf (c :: t) = false := by
      simp [List.isPrefixOf, hne]
    rw [hpre, ih h.2]
    rfl

theorem httpSlash_ne_nil : httpSlash ≠ [] := by decide

theorem dot_ne_nil : (['.'] : List Char) ≠ [] := by decide

/-- Counterexample for C6: on the version segment `"xHTTP/1.1"`, which is
not of the claimed whole-segment `HTTP/<major>.<minor>` shape, the
version stage nevertheless succeeds (it scans to the first `"HTTP/"`
occurrence anywhere inside the segment). -/
theorem c6_counterexample :
    versionParse "xHTTP/1.1\r\nZ".data = some ("Z".data, ⟨1, 1⟩) ∧
    claimedVersionShape "xHTTP/1.1".data = false := by
  constructor
  · rfl
  · decide

/-- A component that parses as a `u8` contains no dot: it is an optional
leading `+` followed by decimal digits. -/
theorem parseU8_no_dot {s : List Char} {v : Nat} (h : parseU8 s = some v) :
    containsSeq ['.'] s = false := by
  by_cases hp : s.head? = some '+'
  · cases s with
    | nil => simp at hp
    | cons c t =>
      have hc : c = '+' := by simpa using hp
      subst hc
      have hred : parseU8 ('+' :: t) =
          (if t.isEmpty then none
           else if t.all (fun c => c.isDigit) then
             (if digitsVal t ≤ 255 then some (digitsVal t) else none)
           else none) := rfl
      rw [hred] at h
      by_cases he : t.isEmpty
      · rw [if_pos he] at h
        exact absurd h (by simp)
      · rw [if_neg he] at h
        by_cases ha : t.all (fun c => c.isDigit) = true
        · rw [containsSeq_cons]
          have h1 : (['.'] : List Char).isPrefixOf ('+' :: t) = false := by
            simp [List.isPrefixOf]
          rw [h1, no_dot_of_all_digits ha]
          rfl
        · rw [if_neg ha] at h
          exact absurd h (by simp)
  · have hred : parseU8 s =
        (if s.isEmpty then none
         else if s.all (fun c => c.isDigit) then
           (if digitsVal s ≤ 255 then some (digitsVal s) else none)
         else none) := by
      unfold parseU8
      rw [if_neg hp]
    rw [hred] at h
    by_cases he : s.isEmpty
    · rw [if_pos he] at h
      exact absurd h (by simp)
    · rw [if_neg he] at h
      by_cases ha : s.all (fun c => c.isDigit) = true
      · exact no_dot_of_all_digits ha
      · rw [if_neg ha] at h
        exact absurd h (by simp)

/-- Claim C6 (amended): the version stage accepts a CRLF-terminated
segment exactly when it contains `"HTTP/"` somewhere and the first two
`"."`-separated components of the text after the first `"HTTP/"`
occurrence both parse as `u8` integers (optionally `+`-signed decimal, at
most 255).  The six conjuncts are the complete case analysis: acceptance
of `<junk>HTTP/<major>.<minor><extra>`; rejection when the segment has no
`"HTTP/"`; rejection when the text has no CRLF; rejection when the text
after `"HTTP/"` has no dot (no minor component); rejection when the major
component does not parse as a `u8`; and rejection when the minor
component (the text between the first and second dot) does not parse as a
`u8`. -/
theorem c6_version_parse_amended :
    (∀ pre mj mn extra rest : List Char, ∀ vmj vmn : Nat,
        containsSeq crlf ((pre ++ httpSlash ++ mj ++ ['.'] ++ mn ++ extra) ++ ['\r']) = false →
        containsSeq httpSlash (pre ++ "HTTP".data) = false →
        parseU8 mj = some vmj →
        parseU8 mn = some vmn →
        (extra = [] ∨ ∃ e, extra = '.' :: e) →
        versionParse ((pre ++ httpSlash ++ mj ++ ['.'] ++ mn ++ extra) ++ crlf ++ rest) =
          some (rest, ⟨vmj, vmn⟩)) ∧
    (∀ seg rest : List Char,
        containsSeq crlf (seg ++ ['\r']) = false →
        containsSeq httpSlash seg = false →
        versionParse (seg ++ crlf ++ rest) = none) ∧
    (∀ txt : List Char,
        containsSeq crlf txt = false → versionParse txt = none) ∧
    (∀ pre after rest : List Char,
        containsSeq crlf ((pre ++ httpSlash ++ after) ++ ['\r']) = false →
        containsSeq httpSlash (pre ++ "HTTP".data) = false →
        containsSeq ['.'] after = false →
        versionParse ((pre ++ httpSlash ++ after) ++ crlf ++ rest) = none) ∧
    (∀ pre mjx r2 rest : List Char,
        containsSeq crlf ((pre ++ httpSlash ++ mjx ++ ['.'] ++ r2) ++ ['\r']) = false →
        containsSeq httpSlash (pre ++ "HTTP".data) = false →
        containsSeq ['.'] mjx = false →
        parseU8 mjx = none →
        versionParse ((pre ++ httpSlash ++ mjx ++ ['.'] ++ r2) ++ crlf ++ rest) = none) ∧
    (∀ pre mjx r2 rest : List Char, ∀ vmj : Nat,
        containsSeq crlf ((pre ++ httpSlash ++ mjx ++ ['.'] ++ r2) ++ ['\r']) = false →
        containsSeq httpSlash (pre ++ "HTTP".data) = false →
        parseU8 mjx = some vmj →
        parseU8 ((splitn2 ['.'] r2).1) = none →
        versionParse ((pre ++ httpSlash ++ mjx ++ ['.'] ++ r2) ++ crlf ++ rest) = none) := by
  have hdropc : crlf.dropLast = ['\r'] := rfl
  have hdroph : httpSlash.dropLast = "HTTP".data := rfl
  have hdropd : (['.'] : List Char).dropLast = [] := rfl
  refine ⟨?_, ?_, ?_, ?_, ?_, ?_⟩
  · intro pre mj mn extra rest vmj vmn h1 h2 hmj hmn hextra
    have e1 : splitn2 crlf ((pre ++ httpSlash ++ mj ++ ['.'] ++ mn ++ extra) ++ crlf ++ rest) =
        (pre ++ httpSlash ++ mj ++ ['.'] ++ mn ++ extra, some rest) :=
      splitn2_append crlf_ne_nil _ rest (by rw [hdropc]; exact h1)
    have assoc1 : pre ++ httpSlash ++ mj ++ ['.'] ++ mn ++ extra =
        pre ++ httpSlash ++ (mj ++ ['.'] ++ mn ++ extra) := by
      simp [List.append_assoc]
    have e2 : splitn2 httpSlash (pre ++ httpSlash ++ mj ++ ['.'] ++ mn ++ extra) =
        (pre, some (mj ++ ['.'] ++ mn ++ extra)) := by
      rw [assoc1]
      exact splitn2_append httpSlash_ne_nil pre _ (by rw [hdroph]; exact h2)
    have assoc2 : mj ++ ['.'] ++ mn ++ extra = mj ++ ['.'] ++ (mn ++ extra) := by
      simp [List.append_assoc]
    have e3 : splitn2 ['.'] (mj ++ ['.'] ++ mn ++ extra) = (mj, some (mn ++ extra)) := by
      rw [assoc2]
      exact splitn2_append dot_ne_nil mj _
        (by rw [hdropd, List.append_nil]; exact parseU8_no_dot hmj)
    have e5 : (splitn2 ['.'] (mn ++ extra)).1 = mn := by
      rcases hextra with rfl | ⟨e, rfl⟩
      · rw [List.append_nil]
        rw [splitn2_not_contains (parseU8_no_dot hmn)]
      · have hme : mn ++ '.' :: e = mn ++ ['.'] ++ e := by simp
        rw [hme]
        rw [splitn2_append dot_ne_nil mn e
          (by rw [hdropd, List.append_nil]; exact parseU8_no_dot hmn)]
    simp only [versionParse, e1, e2, e3, hmj, e5, hmn]
  · intro seg rest h1 h2
    have e1 : splitn2 crlf (seg ++ crlf ++ rest) = (seg, some rest) :=
      splitn2_append crlf_ne_nil seg rest (by rw [hdropc]; exact h1)
    have e2 : splitn2 httpSlash seg = (seg, none) := splitn2_not_contains h2
    simp only [versionParse, e1, e2]
  · intro txt h
    have e1 : splitn2 crlf txt = (txt, none) := splitn2_not_contains h
    simp only [versionParse, e1]
  · intro pre after rest h1 h2 h3
    have e1 : splitn2 crlf ((pre ++ httpSlash ++ after) ++ crlf ++ rest) =
        (pre ++ httpSlash ++ after, some rest) :=
      splitn2_append crlf_ne_nil _ rest (by rw [hdropc]; exact h1)
    have e2 : splitn2 httpSlash (pre ++ httpSlash ++ after) = (pre, some after) :=
      splitn2_append httpSlash_ne_nil pre after (by rw [hdroph]; exact h2)
    have e3 : splitn2 ['.'] after = (after, none) := splitn2_not_contains h3
    simp only [versionParse, e1, e2, e3]
    cases hpa : parseU8 after <;> rfl
  · intro pre mjx r2 rest h1 h2 h3 h4
    have e1 : splitn2 crlf ((pre ++ httpSlash ++ mjx ++ ['.'] ++ r2) ++ crlf ++ rest) =
        (pre ++ httpSlash ++ mjx ++ ['.'] ++ r2, some rest) :=
      splitn2_append crlf_ne_nil _ rest (by rw [hdropc]; exact h1)
    have assoc1 : pre ++ httpSlash ++ mjx ++ ['.'] ++ r2 =
        pre ++ httpSlash ++ (mjx ++ ['.'] ++ r2) := by
      simp [List.append_assoc]
    have e2 : splitn2 httpSlash (pre ++ httpSlash ++ mjx ++ ['.'] ++ r2) =
        (pre, some (mjx ++ ['.'] ++ r2)) := by
      rw [assoc1]
      exact splitn2_append httpSlash_ne_nil pre _ (by rw [hdroph]; exact h2)
    have e3 : splitn2 ['.'] (mjx ++ ['.'] ++ r2) = (mjx, some r2) :=
      splitn2_append dot_ne_nil mjx r2 (by rw [hdropd, List.append_nil]; exact h3)
    simp only [versionParse, e1, e2, e3, h4]
  · intro pre mjx r2 rest vmj h1 h2 h3 h4
    have e1 : splitn2 crlf ((pre ++ httpSlash ++ mjx ++ ['.'] ++ r2) ++ crlf ++ rest) =
        (pre ++ httpSlash ++ mjx ++ ['.'] ++ r2, some rest) :=
      splitn2_append crlf_ne_nil _ rest (by rw [hdropc]; exact h1)
    have assoc1 : pre ++ httpSlash ++ mjx ++ ['.'] ++ r2 =
        pre ++ httpSlash ++ (mjx ++ ['.'] ++ r2) := by
      simp [List.append_assoc]
    have e2 : splitn2 httpSlash (pre ++ httpSlash ++ mjx ++ ['.'] ++ r2) =
        (pre, some (mjx ++ ['.'] ++ r2)) := by
      rw [assoc1]
      exact splitn2_append httpSlash_ne_nil pre _ (by rw [hdroph]; exact h2)
    have e3 : splitn2 ['.'] (mjx ++ ['.'] ++ r2) = (mjx, some r2) :=
      splitn2_append dot_ne_nil mjx r2
        (by rw [hdropd, List.append_nil]; exact parseU8_no_dot h3)
    simp only [versionParse, e1, e2, e3, h3, h4]

/-- Witness for C6: junk before `HTTP/`, an extra `.`-component, and a
`+`-signed component are accepted; missing `HTTP/`, missing CRLF, a
missing dot, a non-numeric major, a non-numeric minor, and an
out-of-range minor all fail. -/
theorem c6_witness :
    versionParse "xHTTP/12.3.9\r\nQ".data = some ("Q".data, ⟨12, 3⟩) ∧
    versionParse "HTTP/+1.2\r\n".data = some ([], ⟨1, 2⟩) ∧
    versionParse "HTTP1.1\r\n".data = none ∧
    versionParse "HTTP/1.1".data = none ∧
    versionParse "HTTP/1\r\n".data = none ∧
    versionParse "HTTP/a.1\r\n".data = none ∧
    versionParse "HTTP/1.x\r\n".data = none ∧
    versionParse "HTTP/1.256\r\n".data = none :=
  ⟨c6_version_parse_amended.1 "x".data "12".data "3".data ".9".data "Q".data 12 3
      (by decide) (by decide) (by decide) (by decide) (Or.inr ⟨"9".data, rfl⟩),
    c6_version_parse_amended.1 [] "+1".data "2".data [] [] 1 2
      (by decide) (by decide) (by decide) (by decide) (Or.inl rfl),
    c6_version_parse_amended.2.1 "HTTP1.1".data [] (by decide) (by decide),
    c6_version_parse_amended.2.2.1 "HTTP/1.1".data (by decide),
    c6_version_parse_amended.2.2.2.1 [] "1".data [] (by decide) (by decide) (by decide),
    c6_version_parse_amended.2.2.2.2.1 [] "a".data "1".data [] (by decide) (by decide)
      (by decide) (by decide),
    c6_version_parse_amended.2.2.2.2.2 [] "1".data "x".data [] 1 (by decide) (by decide)
      (by decide) (by decide),
    c6_version_parse_amended.2.2.2.2.2 [] "1".data "256".data [] 1 (by decide) (by decide)
      (by decide) (by decide)⟩

theorem countP_set_start {l : List (Option Nat)} :
    ∀ {i : Nat}, l.get? i = some none → ∀ j,
      (l.set i (some j)).countP (fun w => w.isSome) = l.countP (fun w => w.isSome) + 1 := by
  induction l with
  | nil =>
    intro i h
    simp [List.get?] at h
  | cons a t ih =>
    intro i h j
    cases i with
    | zero =>
      have ha : a = none := by
        simp only [List.get?, Option.some.injEq] at h
        exact h
      rw [ha]
      simp [List.set, List.countP_cons]
    | succ i' =>
      simp only [List.get?] at h
      have hih := ih h j
      simp only [List.set, List.countP_cons, hih]
      omega

theorem countP_set_finish {l : List (Option Nat)} :
    ∀ {i j : Nat}, l.get? i = some (some j) →
      (l.set i none).countP (fun w => w.isSome) + 1 = l.countP (fun w => w.isSome) := by
  induction l with
  | nil =>
    intro i j h
    simp [List.get?] at h
  | cons a t ih =>
    intro i j h
    cases i with
    | zero =>
      have ha : a = some j := by
        simp only [List.get?, Option.some.injEq] at h
        exact h
      rw [ha]
      simp [List.set, List.countP_cons]
    | succ i' =>
      simp only [List.get?] at h
      have hih := ih h
      simp only [List.set, List.countP_cons]
      omega

theorem mem_exists_get? {α : Type} {w : α} {l : List α} (h : w ∈ l) :
    ∃ i, l.get? i = some w := by
  induction l with
  | nil => cases h
  | cons a t ih =>
    cases h with
    | head => exact ⟨0, rfl⟩
    | tail _ h' =>
      obtain ⟨i, hi⟩ := ih h'
      exact ⟨i + 1, hi⟩

/-- The FIFO/length invariant of the scheduler: the started jobs followed
by the queued jobs are exactly the submitted jobs in submission order,
and the worker count never changes. -/
theorem pool_inv {n k : Nat} : ∀ {s : PoolState}, poolReaches (poolInit n k) s →
    s.started ++ s.queue = List.range k ∧ s.workers.length = n := by
  intro s h
  induction h with
  | refl => exact ⟨by simp [poolInit], by simp [poolInit]⟩
  | tail hr hstep ih =>
    rename_i b c
    obtain ⟨ih1, ih2⟩ := ih
    cases hstep with
    | start i j q' hq hw =>
      refine ⟨?_, by simp [List.length_set, ih2]⟩
      show (b.started ++ [j]) ++ q' = List.range k
      rw [List.append_assoc]
      show b.started ++ (j :: q') = List.range k
      rw [← hq]
      exact ih1
    | finish i j hw =>
      exact ⟨ih1, by simp [List.length_set, ih2]⟩

/-- Claim C8: in every schedule of the pool — any interleaving of the
worker loops — the started jobs followed by the still-queued jobs are
exactly the submitted jobs in submission order (so dequeue order is FIFO
and no job is started twice), at most `n` jobs execute concurrently, a
quiescent state has executed every submitted job exactly once, a
non-quiescent state can always take a step, and every step decreases the
termination measure (so every maximal schedule is finite and ends
quiescent: every job is eventually executed exactly once). -/
theorem c8_pool_executes_all :
    ∀ (n k : Nat) (s : PoolState), 0 < n → poolReaches (poolInit n k) s →
      (s.started ++ s.queue = List.range k ∧ s.workers.length = n) ∧
      busyCount s ≤ n ∧
      (poolDone s → s.started = List.range k ∧ s.started.Nodup) ∧
      (¬ poolDone s → ∃ t, PoolStep s t) ∧
      (∀ t, PoolStep s t → poolMeasure t < poolMeasure s) := by
  intro n k s hn hreach
  have hinv := pool_inv hreach
  refine ⟨hinv, ?_, ?_, ?_, ?_⟩
  · calc busyCount s ≤ s.workers.length := List.countP_le_length _
    _ = n := hinv.2
  · intro hdone
    have hs : s.started = List.range k := by
      have h1 := hinv.1
      rw [hdone.1, List.append_nil] at h1
      exact h1
    exact ⟨hs, by rw [hs]; exact List.nodup_range k⟩
  · intro hnd
    by_cases hbusy : ∃ i j, s.workers.get? i = some (some j)
    · obtain ⟨i, j, hw⟩ := hbusy
      exact ⟨_, PoolStep.finish s i j hw⟩
    · have hall : ∀ w ∈ s.workers, w = none := by
        intro w hw
        cases hwv : w with
        | none => rfl
        | some j =>
          rw [hwv] at hw
          obtain ⟨i, hi⟩ := mem_exists_get? hw
          exact absurd ⟨i, j, hi⟩ hbusy
      cases hq : s.queue with
      | nil => exact absurd ⟨hq, hall⟩ hnd
      | cons j q' =>
        have hlen : s.workers.length = n := hinv.2
        have h0 : s.workers.get? 0 = some none := by
          cases hws : s.workers with
          | nil =>
            rw [hws] at hlen
            simp at hlen
            omega
          | cons w t =>
            have hwmem : w ∈ s.workers := by
              rw [hws]
              exact List.mem_cons_self w t
            simp [List.get?, hall w hwmem]
        exact ⟨_, PoolStep.start s 0 j q' hq h0⟩
  · intro t hstep
    cases hstep with
    | start i j q' hq hw =>
      have hb := countP_set_start hw j
      unfold poolMeasure busyCount
      dsimp only
      rw [hb, hq]
      simp only [List.length_cons]
      omega
    | finish i j hw =>
      have hb := countP_set_finish hw
      unfold poolMeasure busyCount
      dsimp only
      omega

/-- Witness for C8: a complete two-step schedule of a pool of one worker
and one job — the job is dequeued and finished, the final state is
quiescent with the job executed exactly once and at most one worker ever
busy. -/
theorem c8_witness :
    (⟨[], [none], [0]⟩ : PoolState).started = List.range 1 ∧
    (⟨[], [none], [0]⟩ : PoolState).started.Nodup ∧
    busyCount ⟨[], [none], [0]⟩ ≤ 1 := by
  have hreach : poolReaches (poolInit 1 1) ⟨[], [none], [0]⟩ := by
    refine Relation.ReflTransGen.tail (Relation.ReflTransGen.tail Relation.ReflTransGen.refl
      (PoolStep.start (poolInit 1 1) 0 0 [] rfl rfl)) ?_
    exact PoolStep.finish ⟨[], [some 0], [0]⟩ 0 0 rfl
  have main := c8_pool_executes_all 1 1 ⟨[], [none], [0]⟩ (by decide) hreach
  have hdone := main.2.2.1 ⟨rfl, by simp⟩
  exact ⟨hdone.1, hdone.2, main.2.1⟩

end Scratch
